import Mathlib

/-!
Verification of the SIR/SIRD epidemic simulator (`src/SIR.py`).

The numerical core is embedded shallowly over `ℚ`:

* `SIR_model` is the derivative evaluator (lines 71-77 of the source).
* The time grid `np.linspace(0, days, days * 10)` (line 80) is `timeGrid`.
* The `odeint` call (line 84) invokes an external adaptive ODE solver; the
  spec (§4.2) allows any standard method sampling the trajectory at the grid
  points, so the integrator is modelled as an explicit fixed-step method
  driving `SIR_model` across consecutive grid points (`odeint` below).
* `np.max` / `np.argmax` (lines 88-89), the `Re` sequence (line 92) and the
  attack rate (line 152) are embedded directly. Line 92's scalar prefactor
  `beta / (gamma + mu)` is pure-Python float division, which raises an
  uncaught `ZeroDivisionError` when `gamma + mu = 0`; `Re_py` carries that
  error path, while `Re` is the value computed in the region
  `gamma + mu` different from 0.

The source performs no input validation (no `raise` appears anywhere), so
integration itself is total in the inputs.
-/

namespace SIR

/-- A compartment state `(S, I, R, D)`, the tuple handled by the Python code. -/
abbrev State : Type := ℚ × ℚ × ℚ × ℚ

/-- Embeds `SIR_model` (src/SIR.py lines 71-77): the pure derivative
evaluator returning `(dSdt, dIdt, dRdt, dDdt)`. -/
def SIR_model (y : State) (_t : ℚ) (N beta gamma mu : ℚ) : State :=
  match y with
  | (S, I, _R, _D) =>
    (-beta * S * I / N,
     beta * S * I / N - gamma * I - mu * I,
     gamma * I,
     mu * I)

/-- Embeds `np.linspace a b n`: `n` evenly spaced points from `a` to `b`
inclusive (for `n = 1` numpy returns `[a]`; division by `0` in `ℚ` agrees). -/
def linspace (a b : ℚ) (n : ℕ) : List ℚ :=
  (List.range n).map (fun i : ℕ => a + (b - a) * (i : ℚ) / ((n : ℚ) - 1))

/-- Embeds line 80: `t = np.linspace(0, days, days * 10)`, ten points per day. -/
def timeGrid (days : ℕ) : List ℚ :=
  linspace 0 days (days * 10)

/-- One explicit integration step of length `h` from state `y` at time `t`,
advancing along the derivative returned by `SIR_model`. -/
def eulerStep (y : State) (t h : ℚ) (N beta gamma mu : ℚ) : State :=
  match SIR_model y t N beta gamma mu with
  | (dS, dI, dR, dD) =>
    (y.1 + h * dS, y.2.1 + h * dI, y.2.2.1 + h * dR, y.2.2.2 + h * dD)

/-- The integrator loop: given the current state `y` at time `t` and the
remaining grid points, record `y` and step to the next grid point. -/
def odeintAux (N beta gamma mu : ℚ) (y : State) (t : ℚ) : List ℚ → List State
  | [] => [y]
  | t' :: rest =>
    y :: odeintAux N beta gamma mu (eulerStep y t (t' - t) N beta gamma mu) t' rest

/-- Models the `odeint(SIR_model, y0, t, args=(N, beta, gamma, mu))` call of
line 84: the trajectory sampled at every point of the grid `ts`, starting
from `y0` at the first grid point. -/
def odeint (N beta gamma mu : ℚ) (y0 : State) : List ℚ → List State
  | [] => []
  | t0 :: rest => odeintAux N beta gamma mu y0 t0 rest

/-- Embeds lines 66-68 and 83-84: the initial state `(N - I0, I0, 0, 0)` and
the integration over the time grid. -/
def sol (N beta gamma mu : ℚ) (days : ℕ) (I0 : ℚ) : List State :=
  odeint N beta gamma mu (N - I0, I0, 0, 0) (timeGrid days)

/-- Line 85, `S, I, R, D = sol.T`: the susceptible sequence. -/
def S_seq (N beta gamma mu : ℚ) (days : ℕ) (I0 : ℚ) : List ℚ :=
  (sol N beta gamma mu days I0).map (fun y => y.1)

/-- Line 85: the infected sequence. -/
def I_seq (N beta gamma mu : ℚ) (days : ℕ) (I0 : ℚ) : List ℚ :=
  (sol N beta gamma mu days I0).map (fun y => y.2.1)

/-- Line 85: the recovered sequence. -/
def R_seq (N beta gamma mu : ℚ) (days : ℕ) (I0 : ℚ) : List ℚ :=
  (sol N beta gamma mu days I0).map (fun y => y.2.2.1)

/-- Line 85: the deceased sequence. -/
def D_seq (N beta gamma mu : ℚ) (days : ℕ) (I0 : ℚ) : List ℚ :=
  (sol N beta gamma mu days I0).map (fun y => y.2.2.2)

/-- Embeds `np.max` on a sequence (line 88). -/
def np_max : List ℚ → ℚ
  | [] => 0
  | x :: xs => xs.foldl max x

/-- Embeds `np.argmax` (line 89): the first index at which the maximum value
occurs, i.e. the index of the first occurrence of `np_max l`. -/
def np_argmax (l : List ℚ) : ℕ :=
  l.indexOf (np_max l)

/-- Line 88: `max_infected = np.max(I)`. -/
def max_infected (I : List ℚ) : ℚ :=
  np_max I

/-- Line 89: `day_of_peak = t[np.argmax(I)]`. -/
def day_of_peak (t I : List ℚ) : ℚ :=
  t.getD (np_argmax I) 0

/-- Embeds line 92: `Re = (beta / (gamma + mu)) * (S / N)`, computed
pointwise over the susceptible sequence; this is the value produced in the
non-degenerate region `gamma + mu` different from 0 (see `Re_py` for the
division-by-zero error path). -/
def Re (beta gamma mu N : ℚ) (S : List ℚ) : List ℚ :=
  S.map (fun s => (beta / (gamma + mu)) * (s / N))

/-- Embeds line 152: the final attack rate `1 - S[-1]/N` as a fraction (the
code multiplies by 100 and rounds to two decimals only for display). -/
def attack_rate (S_last N : ℚ) : ℚ :=
  1 - S_last / N

/-- The runtime failure modes of line 92: `zeroDivisionError` models the
uncaught `ZeroDivisionError` Python raises on float division by zero;
`domainError` models the `DomainError` the spec prescribes, which the code
never raises. -/
inductive PyErr where
  | zeroDivisionError : PyErr
  | domainError : PyErr
  deriving DecidableEq

/-- Embeds line 92 with Python evaluation semantics: the prefactor
`beta / (gamma + mu)` is pure-Python float division of slider values, so
`gamma + mu = 0` raises an uncaught `ZeroDivisionError` before any numpy
arithmetic runs; otherwise the elementwise sequence `Re` is produced. -/
def Re_py (beta gamma mu N : ℚ) (S : List ℚ) : Except PyErr (List ℚ) :=
  if gamma + mu = 0 then Except.error PyErr.zeroDivisionError
  else Except.ok (Re beta gamma mu N S)

/-- Line 152: `S[-1]`, the final susceptible value of the integrated
trajectory (last element, with default `0`; the sequence is non-empty for
`days >= 1`). -/
def S_final (N beta gamma mu : ℚ) (days : ℕ) (I0 : ℚ) : ℚ :=
  (S_seq N beta gamma mu days I0).getLastD 0

/-- The total population held in a state, `S + I + R + D`. -/
def sumState (y : State) : ℚ :=
  y.1 + y.2.1 + y.2.2.1 + y.2.2.2

/-- The monotonicity relation between consecutive trajectory states: deaths
and recoveries never decrease, susceptibles never increase. -/
def monoRel (a b : State) : Prop :=
  a.2.2.2 ≤ b.2.2.2 ∧ a.2.2.1 ≤ b.2.2.1 ∧ b.1 ≤ a.1

/-! ### Helper lemmas -/

theorem SIR_model_sum (y : State) (t N beta gamma mu : ℚ) :
    sumState (SIR_model y t N beta gamma mu) = 0 := by
  obtain ⟨S, I, R, D⟩ := y
  simp only [SIR_model, sumState]
  ring

theorem eulerStep_sum (y : State) (t h N beta gamma mu : ℚ) :
    sumState (eulerStep y t h N beta gamma mu) = sumState y := by
  obtain ⟨S, I, R, D⟩ := y
  simp only [eulerStep, SIR_model, sumState]
  ring

theorem odeintAux_sum (N beta gamma mu : ℚ) :
    ∀ (ts : List ℚ) (y : State) (t : ℚ) (st : State),
      st ∈ odeintAux N beta gamma mu y t ts → sumState st = sumState y
  | [], y, t, st, hst => by
    simp only [odeintAux, List.mem_singleton] at hst
    rw [hst]
  | t' :: rest, y, t, st, hst => by
    simp only [odeintAux, List.mem_cons] at hst
    rcases hst with h | h
    · rw [h]
    · rw [odeintAux_sum N beta gamma mu rest _ t' st h, eulerStep_sum]

theorem odeintAux_length (N beta gamma mu : ℚ) :
    ∀ (ts : List ℚ) (y : State) (t : ℚ),
      (odeintAux N beta gamma mu y t ts).length = ts.length + 1
  | [], _, _ => rfl
  | _ :: rest, y, t => by
    simp only [odeintAux, List.length_cons, odeintAux_length N beta gamma mu rest]

theorem odeintAux_head (N beta gamma mu : ℚ) (ts : List ℚ) (y : State) (t : ℚ) :
    ∃ l, odeintAux N beta gamma mu y t ts = y :: l := by
  cases ts with
  | nil => exact ⟨[], rfl⟩
  | cons t' rest => exact ⟨_, rfl⟩

theorem linspace_length (a b : ℚ) (n : ℕ) : (linspace a b n).length = n := by
  simp only [linspace, List.length_map, List.length_range]

theorem timeGrid_length (days : ℕ) : (timeGrid days).length = days * 10 := by
  simp [timeGrid, linspace_length]

theorem timeGrid_cons (days : ℕ) (hd : 1 ≤ days) :
    ∃ t0 rest, timeGrid days = t0 :: rest := by
  cases hts : timeGrid days with
  | nil =>
    have := timeGrid_length days
    rw [hts] at this
    simp at this
    omega
  | cons t0 rest => exact ⟨t0, rest, rfl⟩

theorem sol_head (N beta gamma mu I0 : ℚ) (days : ℕ) (hd : 1 ≤ days) :
    ∃ l, sol N beta gamma mu days I0 = (N - I0, I0, 0, 0) :: l := by
  obtain ⟨t0, rest, hts⟩ := timeGrid_cons days hd
  rw [sol, hts, odeint]
  exact odeintAux_head N beta gamma mu rest _ t0

theorem sol_length (N beta gamma mu I0 : ℚ) (days : ℕ) (hd : 1 ≤ days) :
    (sol N beta gamma mu days I0).length = days * 10 := by
  obtain ⟨t0, rest, hts⟩ := timeGrid_cons days hd
  have hlen := timeGrid_length days
  rw [hts] at hlen
  rw [sol, hts, odeint, odeintAux_length]
  simpa using hlen

theorem sol_sum (N beta gamma mu I0 : ℚ) (days : ℕ) (st : State)
    (hst : st ∈ sol N beta gamma mu days I0) : sumState st = N := by
  rw [sol] at hst
  cases hts : timeGrid days with
  | nil => rw [hts] at hst; simp [odeint] at hst
  | cons t0 rest =>
    rw [hts, odeint] at hst
    have := odeintAux_sum N beta gamma mu rest _ t0 st hst
    rw [this]
    simp only [sumState]
    ring

theorem le_foldl_max : ∀ (xs : List ℚ) (a : ℚ), a ≤ xs.foldl max a
  | [], a => le_refl a
  | x :: xs, a => le_trans (le_max_left a x) (le_foldl_max xs (max a x))

theorem foldl_max_le_of_mem : ∀ (xs : List ℚ) (a x : ℚ), x ∈ xs → x ≤ xs.foldl max a
  | [], _, _, h => absurd h (List.not_mem_nil _)
  | y :: ys, a, x, h => by
    rcases List.mem_cons.1 h with rfl | h'
    · exact le_trans (le_max_right a x) (le_foldl_max ys (max a x))
    · exact foldl_max_le_of_mem ys (max a y) x h'

theorem foldl_max_mem : ∀ (xs : List ℚ) (a : ℚ), xs.foldl max a = a ∨ xs.foldl max a ∈ xs
  | [], _ => Or.inl rfl
  | y :: ys, a => by
    simp only [List.foldl_cons]
    rcases foldl_max_mem ys (max a y) with h | h
    · rcases le_total a y with hay | hya
      · right
        rw [h, max_eq_right hay]
        exact List.mem_cons_self _ _
      · left
        rw [h, max_eq_left hya]
    · right
      exact List.mem_cons_of_mem y h

theorem np_max_mem (l : List ℚ) (h : l ≠ []) : np_max l ∈ l := by
  cases l with
  | nil => exact absurd rfl h
  | cons x xs =>
    simp only [np_max]
    rcases foldl_max_mem xs x with h' | h'
    · rw [h']
      exact List.mem_cons_self _ _
    · exact List.mem_cons_of_mem x h'

theorem le_np_max (l : List ℚ) (x : ℚ) (h : x ∈ l) : x ≤ np_max l := by
  cases l with
  | nil => simp at h
  | cons y ys =>
    simp only [np_max]
    rcases List.mem_cons.1 h with rfl | h'
    · exact le_foldl_max ys x
    · exact foldl_max_le_of_mem ys y x h'

theorem getD_ne_of_lt_indexOf :
    ∀ (l : List ℚ) (x : ℚ) (j : ℕ), j < l.indexOf x → l.getD j 0 ≠ x
  | [], x, j, h => by simp [List.indexOf_nil] at h
  | y :: ys, x, j, h => by
    by_cases hyx : y = x
    · rw [List.indexOf_cons_eq ys hyx] at h
      omega
    · rw [List.indexOf_cons_ne ys hyx] at h
      cases j with
      | zero => simpa using hyx
      | succ j => simpa using getD_ne_of_lt_indexOf ys x j (by omega)

theorem np_argmax_lt_length (l : List ℚ) (h : l ≠ []) : np_argmax l < l.length :=
  List.indexOf_lt_length.2 (np_max_mem l h)

theorem getD_np_argmax (l : List ℚ) (h : l ≠ []) :
    l.getD (np_argmax l) 0 = np_max l := by
  rw [List.getD_eq_getElem l 0 (np_argmax_lt_length l h)]
  exact List.getElem_indexOf (np_argmax_lt_length l h)

theorem linspace_getD (a b : ℚ) (n i : ℕ) (hi : i < n) :
    (linspace a b n).getD i 0 = a + (b - a) * (i : ℚ) / ((n : ℚ) - 1) := by
  have hi' : i < (linspace a b n).length := by
    rw [linspace_length]
    exact hi
  rw [List.getD_eq_getElem _ _ hi']
  simp only [linspace, List.getElem_map, List.getElem_range]

theorem timeGrid_getD (days i : ℕ) (hi : i < days * 10) :
    (timeGrid days).getD i 0 = (days : ℚ) * (i : ℚ) / ((days : ℚ) * 10 - 1) := by
  rw [timeGrid, linspace_getD 0 days (days * 10) i hi]
  push_cast
  ring

theorem timeGrid_strict_mono (days : ℕ) (hd : 1 ≤ days) (i j : ℕ)
    (hij : i < j) (hj : j < days * 10) :
    (timeGrid days).getD i 0 < (timeGrid days).getD j 0 := by
  rw [timeGrid_getD days i (lt_trans hij hj), timeGrid_getD days j hj]
  have hdpos : (1 : ℚ) ≤ (days : ℚ) := by exact_mod_cast hd
  have hden : (0 : ℚ) < (days : ℚ) * 10 - 1 := by linarith
  rw [div_lt_div_right hden]
  have hijq : (i : ℚ) < (j : ℚ) := by exact_mod_cast hij
  nlinarith

theorem timeGrid_chain_le (days : ℕ) : List.Chain' (· ≤ ·) (timeGrid days) := by
  rcases Nat.eq_zero_or_pos days with hd | hd
  · subst hd
    simp [timeGrid, linspace]
  · rw [List.chain'_iff_get]
    intro i hi
    have hlen : (timeGrid days).length = days * 10 := timeGrid_length days
    rw [hlen] at hi
    have hj : i + 1 < days * 10 := by omega
    have h1 := List.getD_eq_getElem (timeGrid days) 0
      (show i < (timeGrid days).length by omega)
    have h2 := List.getD_eq_getElem (timeGrid days) 0
      (show i + 1 < (timeGrid days).length by omega)
    rw [List.get_eq_getElem, List.get_eq_getElem, ← h1, ← h2]
    exact le_of_lt (timeGrid_strict_mono days hd i (i + 1) (by omega) hj)

theorem eulerStep_mono (S I R D t h N beta gamma mu : ℚ)
    (hb : 0 ≤ beta) (hg : 0 ≤ gamma) (hm : 0 ≤ mu) (hN : 0 < N) (hh : 0 ≤ h)
    (hS : 0 ≤ S) (hI : 0 ≤ I) :
    monoRel (S, I, R, D) (eulerStep (S, I, R, D) t h N beta gamma mu) := by
  simp only [monoRel, eulerStep, SIR_model]
  have hq : 0 ≤ beta * S * I / N := div_nonneg (by positivity) hN.le
  refine ⟨?_, ?_, ?_⟩
  · nlinarith [mul_nonneg hh (mul_nonneg hm hI)]
  · nlinarith [mul_nonneg hh (mul_nonneg hg hI)]
  · have hdiv : -beta * S * I / N ≤ 0 :=
      div_nonpos_iff.2 (Or.inr ⟨by nlinarith [mul_nonneg (mul_nonneg hb hS) hI], hN.le⟩)
    have hstep : h * (-beta * S * I / N) ≤ 0 :=
      mul_nonpos_iff.2 (Or.inl ⟨hh, hdiv⟩)
    linarith

theorem odeintAux_chain (N beta gamma mu : ℚ)
    (hb : 0 ≤ beta) (hg : 0 ≤ gamma) (hm : 0 ≤ mu) (hN : 0 < N) :
    ∀ (ts : List ℚ) (y : State) (t : ℚ),
      List.Chain' (· ≤ ·) (t :: ts) →
      (∀ st ∈ odeintAux N beta gamma mu y t ts, 0 ≤ st.1 ∧ 0 ≤ st.2.1) →
      List.Chain' monoRel (odeintAux N beta gamma mu y t ts)
  | [], y, t, _, _ => by simp [odeintAux]
  | t' :: rest, y, t, hchain, hpos => by
    simp only [odeintAux] at hpos ⊢
    have hy := hpos y (List.mem_cons_self _ _)
    have htt' : t ≤ t' := (List.chain'_cons.1 hchain).1
    have hchain' : List.Chain' (· ≤ ·) (t' :: rest) := (List.chain'_cons.1 hchain).2
    have hpos' : ∀ st ∈ odeintAux N beta gamma mu
        (eulerStep y t (t' - t) N beta gamma mu) t' rest, 0 ≤ st.1 ∧ 0 ≤ st.2.1 :=
      fun st hst => hpos st (List.mem_cons_of_mem _ hst)
    have htail := odeintAux_chain N beta gamma mu hb hg hm hN rest _ t' hchain' hpos'
    obtain ⟨l, hl⟩ :=
      odeintAux_head N beta gamma mu rest (eulerStep y t (t' - t) N beta gamma mu) t'
    rw [hl] at htail ⊢
    refine List.chain'_cons.2 ⟨?_, htail⟩
    obtain ⟨S, I, R, D⟩ := y
    exact eulerStep_mono S I R D t (t' - t) N beta gamma mu hb hg hm hN
      (by linarith) hy.1 hy.2

theorem eulerStep_zero (y : State) (t h N : ℚ) : eulerStep y t h N 0 0 0 = y := by
  obtain ⟨S, I, R, D⟩ := y
  simp [eulerStep, SIR_model]

theorem mem_odeintAux_zero (N : ℚ) :
    ∀ (ts : List ℚ) (y : State) (t : ℚ) (st : State),
      st ∈ odeintAux N 0 0 0 y t ts → st = y
  | [], y, t, st, hst => by simpa [odeintAux] using hst
  | t' :: rest, y, t, st, hst => by
    simp only [odeintAux, eulerStep_zero, List.mem_cons] at hst
    rcases hst with h | h
    · exact h
    · exact mem_odeintAux_zero N rest y t' st h

theorem mem_sol_zero (N I0 : ℚ) (days : ℕ) (st : State)
    (hst : st ∈ sol N 0 0 0 days I0) : st = (N - I0, I0, 0, 0) := by
  rw [sol] at hst
  cases hts : timeGrid days with
  | nil =>
    rw [hts] at hst
    simp [odeint] at hst
  | cons t0 rest =>
    rw [hts, odeint] at hst
    exact mem_odeintAux_zero N rest _ t0 st hst

theorem S_seq_head (N beta gamma mu I0 : ℚ) (days : ℕ) (hd : 1 ≤ days) :
    ∃ l, S_seq N beta gamma mu days I0 = (N - I0) :: l := by
  obtain ⟨l, hl⟩ := sol_head N beta gamma mu I0 days hd
  rw [S_seq, hl]
  exact ⟨_, rfl⟩

theorem Re_head (N beta gamma mu I0 : ℚ) (days : ℕ) (hd : 1 ≤ days) :
    (Re beta gamma mu N (S_seq N beta gamma mu days I0)).getD 0 0 =
      (beta / (gamma + mu)) * ((N - I0) / N) := by
  obtain ⟨l, hl⟩ := S_seq_head N beta gamma mu I0 days hd
  rw [hl]
  simp [Re]

theorem getLastD_mem (l : List ℚ) (d : ℚ) (h : l ≠ []) : l.getLastD d ∈ l := by
  cases l with
  | nil => exact absurd rfl h
  | cons x xs =>
    rw [List.getLastD_eq_getLast?, List.getLast?_eq_getLast (x :: xs) (by simp)]
    simp

theorem S_final_zero (N I0 : ℚ) (days : ℕ) (hd : 1 ≤ days) :
    S_final N 0 0 0 days I0 = N - I0 := by
  have hlen : (S_seq N 0 0 0 days I0).length = days * 10 := by
    rw [S_seq, List.length_map, sol_length N 0 0 0 I0 days hd]
  have hne : S_seq N 0 0 0 days I0 ≠ [] := by
    intro hnil
    rw [hnil] at hlen
    simp at hlen
    omega
  have hmem : (S_seq N 0 0 0 days I0).getLastD 0 ∈ S_seq N 0 0 0 days I0 :=
    getLastD_mem _ 0 hne
  rw [S_seq] at hmem
  obtain ⟨st, hst, heq⟩ := List.mem_map.1 hmem
  rw [S_final, S_seq, ← heq, mem_sol_zero N I0 days st hst]

/-! ### Claim theorems -/

/-- C1: `SIR_model` returns exactly the derivative tuple
`(-beta*S*I/N, beta*S*I/N - gamma*I - mu*I, gamma*I, mu*I)`, purely, and its
result does not depend on the time argument (the system is autonomous). -/
theorem SIR_model_spec (S I R D t t' N beta gamma mu : ℚ) (hN : N ≠ 0) :
    SIR_model (S, I, R, D) t N beta gamma mu =
      (-(beta * S * I) / N, beta * S * I / N - gamma * I - mu * I,
        gamma * I, mu * I) ∧
    SIR_model (S, I, R, D) t N beta gamma mu =
      SIR_model (S, I, R, D) t' N beta gamma mu := by
  refine ⟨?_, rfl⟩
  simp [SIR_model]

theorem SIR_model_spec_witness :
    SIR_model ((999 : ℚ), 1, 0, 0) 0 1000 (3/10) (1/20) (1/50) =
      (-((3/10) * 999 * 1) / 1000,
        (3/10) * 999 * 1 / 1000 - (1/20) * 1 - (1/50) * 1,
        (1/20) * 1, (1/50) * 1) ∧
    SIR_model ((999 : ℚ), 1, 0, 0) 0 1000 (3/10) (1/20) (1/50) =
      SIR_model ((999 : ℚ), 1, 0, 0) 7 1000 (3/10) (1/20) (1/50) :=
  SIR_model_spec 999 1 0 0 0 7 1000 (3/10) (1/20) (1/50) (by norm_num)

/-- C2: the four derivatives returned by `SIR_model` sum to exactly zero,
the initial state `(N - I0, I0, 0, 0)` sums to `N`, and every state of the
integrated trajectory sums to `N` (the conservation is exact in the model,
hence within any numeric tolerance). -/
theorem conservation (y : State) (t N beta gamma mu I0 : ℚ) (days : ℕ)
    (st : State) (hst : st ∈ sol N beta gamma mu days I0) :
    sumState (SIR_model y t N beta gamma mu) = 0 ∧
    sumState ((N - I0, I0, 0, 0) : State) = N ∧
    sumState st = N := by
  refine ⟨SIR_model_sum y t N beta gamma mu, ?_, sol_sum N beta gamma mu I0 days st hst⟩
  simp only [sumState]
  ring

theorem conservation_witness :
    sumState (SIR_model ((999 : ℚ), 1, 0, 0) 0 1000 (3/10) (1/20) (1/50)) = 0 ∧
    sumState (((1000 : ℚ) - 1, 1, 0, 0) : State) = 1000 ∧
    sumState (((1000 : ℚ) - 1, 1, 0, 0) : State) = 1000 := by
  refine conservation (999, 1, 0, 0) 0 1000 (3/10) (1/20) (1/50) 1 1 _ ?_
  obtain ⟨l, hl⟩ := sol_head 1000 (3/10) (1/20) (1/50) 1 1 (by norm_num)
  rw [hl]
  exact List.mem_cons_self _ _

/-- C5: for a non-empty Infected sequence, `max_infected` is the maximum of
the sequence (an attained upper bound), `np_argmax` is an in-range index
achieving it with every strictly earlier entry strictly below it (first
occurrence on ties), and `day_of_peak` is the time-grid value at that
index. -/
theorem peak_correctness (t I : List ℚ) (h : I ≠ []) :
    max_infected I ∈ I ∧
    (∀ x ∈ I, x ≤ max_infected I) ∧
    np_argmax I < I.length ∧
    I.getD (np_argmax I) 0 = max_infected I ∧
    (∀ j, j < np_argmax I → I.getD j 0 < max_infected I) ∧
    day_of_peak t I = t.getD (np_argmax I) 0 := by
  refine ⟨np_max_mem I h, fun x hx => le_np_max I x hx, np_argmax_lt_length I h,
    getD_np_argmax I h, ?_, rfl⟩
  intro j hj
  have hjlen : j < I.length := lt_trans hj (np_argmax_lt_length I h)
  have hne : I.getD j 0 ≠ np_max I := getD_ne_of_lt_indexOf I (np_max I) j hj
  have hle : I.getD j 0 ≤ np_max I := by
    rw [List.getD_eq_getElem I 0 hjlen]
    exact le_np_max I _ (List.getElem_mem hjlen)
  exact lt_of_le_of_ne hle hne

theorem peak_correctness_witness :
    max_infected [(2 : ℚ), 5, 5] ∈ [(2 : ℚ), 5, 5] ∧
    (5 : ℚ) ≤ max_infected [(2 : ℚ), 5, 5] ∧
    np_argmax [(2 : ℚ), 5, 5] < 3 ∧
    [(2 : ℚ), 5, 5].getD (np_argmax [(2 : ℚ), 5, 5]) 0 = max_infected [(2 : ℚ), 5, 5] ∧
    day_of_peak [(0 : ℚ), 1] [(2 : ℚ), 5, 5] = [(0 : ℚ), 1].getD (np_argmax [(2 : ℚ), 5, 5]) 0 := by
  obtain ⟨h1, h2, h3, h4, _h5, h6⟩ :=
    peak_correctness [(0 : ℚ), 1] [(2 : ℚ), 5, 5] (by simp)
  exact ⟨h1, h2 5 (by simp), h3, h4, h6⟩

/-- C7: the effective reproduction number sequence has the same length as
the susceptible sequence and satisfies, pointwise at every index,
`Re[i] = (beta / (gamma + mu)) * (S[i] / N)`, stated in cleared-denominator
form. -/
theorem Re_pointwise (beta gamma mu N : ℚ) (S : List ℚ)
    (hgm : 0 < gamma + mu) (hN : 0 < N) :
    (Re beta gamma mu N S).length = S.length ∧
    ∀ i, i < S.length →
      (Re beta gamma mu N S).getD i 0 * ((gamma + mu) * N) = beta * S.getD i 0 := by
  constructor
  · simp [Re]
  · intro i hi
    have hi' : i < (Re beta gamma mu N S).length := by
      simpa [Re] using hi
    rw [List.getD_eq_getElem _ _ hi', List.getD_eq_getElem _ _ hi]
    simp only [Re, List.getElem_map]
    field_simp

theorem Re_pointwise_witness :
    (Re (3/10) (1/20) (1/50) 1000 [999]).length = [(999 : ℚ)].length ∧
    (Re (3/10) (1/20) (1/50) 1000 [999]).getD 0 0 * (((1/20) + (1/50)) * 1000) =
      (3/10) * [(999 : ℚ)].getD 0 0 := by
  obtain ⟨h1, h2⟩ :=
    Re_pointwise (3/10) (1/20) (1/50) 1000 [999] (by norm_num) (by norm_num)
  exact ⟨h1, h2 0 (by norm_num)⟩

/-- C3 counterexample: at `gamma = mu = 0` the computation of the `Re`
sequence fails with Python's `ZeroDivisionError`, which is not the
`DomainError` named by the claim. -/
theorem Re_zero_div_cex :
    ((0 : ℚ) + 0 = 0) ∧
    Re_py (3/10) 0 0 1000 [999] = Except.error PyErr.zeroDivisionError ∧
    (Except.error PyErr.zeroDivisionError : Except PyErr (List ℚ)) ≠
      Except.error PyErr.domainError := by
  refine ⟨by norm_num, by norm_num [Re_py], by simp⟩

/-- C3 amended: for every input with `gamma + mu = 0`, computing the `Re`
sequence fails — the pure-Python scalar division `beta / (gamma + mu)`
raises an uncaught `ZeroDivisionError` — and no `Re` sequence is ever
produced; but the failure is not the spec's
`DomainError("recovery and mortality rate cannot both be zero")`, which the
code never raises. -/
theorem Re_py_zero_rates (beta gamma mu N : ℚ) (S : List ℚ)
    (h : gamma + mu = 0) :
    Re_py beta gamma mu N S = Except.error PyErr.zeroDivisionError ∧
    ∀ out, Re_py beta gamma mu N S ≠ Except.ok out := by
  have he : Re_py beta gamma mu N S = Except.error PyErr.zeroDivisionError := by
    simp [Re_py, h]
  refine ⟨he, fun out hout => ?_⟩
  rw [he] at hout
  simp at hout

theorem Re_py_zero_rates_witness :
    Re_py (1/2) 0 0 500 [4, 5] = Except.error PyErr.zeroDivisionError ∧
    Re_py (1/2) 0 0 500 [4, 5] ≠ Except.ok [0, 0] := by
  obtain ⟨h1, h2⟩ := Re_py_zero_rates (1/2) 0 0 500 [4, 5] (by norm_num)
  exact ⟨h1, h2 [0, 0]⟩

/-- C4 counterexample: with `N = 0` the integrator is still invoked and
produces a full 10-point trajectory; no `DomainError` or `ValidationError`
is raised, so the claimed pre-integration rejection does not exist. -/
theorem no_validation_cex :
    (sol 0 (3/10) (1/20) (1/50) 1 1).length = 10 := by
  have h := sol_length 0 (3/10) (1/20) (1/50) 1 1 (by norm_num)
  simpa using h

/-- C4 amended: the core performs no input validation at all: for every
input, including `N = 0`, `I0 < 1` or `I0 > N`, the solver is invoked
directly and returns a full-length trajectory; out-of-range values are
prevented only by the UI widget bounds, not by the core. -/
theorem sol_total (N beta gamma mu I0 : ℚ) (days : ℕ) (hd : 1 ≤ days) :
    (sol N beta gamma mu days I0).length = days * 10 :=
  sol_length N beta gamma mu I0 days hd

theorem sol_total_witness :
    (sol 0 1 1 1 2 5).length = 2 * 10 :=
  sol_total 0 1 1 1 5 2 (by norm_num)

/-- C8 counterexample: the unvalidated core accepts `I0 = 200 > N = 100`
(zero rates, one day); the resulting trajectory's final susceptible value
is `-100`, and the reported final attack rate is `2`, outside `[0, 1]`. -/
theorem attack_rate_cex :
    S_final 100 0 0 0 1 200 = -100 ∧
    attack_rate (S_final 100 0 0 0 1 200) 100 = 2 := by
  have hS : S_final 100 0 0 0 1 200 = -100 := by
    rw [S_final_zero 100 200 1 (by norm_num)]
    norm_num
  refine ⟨hS, ?_⟩
  rw [hS, attack_rate]
  norm_num

/-- C8 amended: the reported final attack rate of the integrated trajectory
equals `1 - S_final / N`, and for `N > 0` it lies in `[0, 1]` exactly when
the trajectory's final susceptible value lies in `[0, N]`; for inputs the
unvalidated core accepts with `I0 > N` the final attack rate exceeds 1. -/
theorem attack_rate_final (N beta gamma mu I0 : ℚ) (days : ℕ) (hN : 0 < N) :
    attack_rate (S_final N beta gamma mu days I0) N =
      1 - S_final N beta gamma mu days I0 / N ∧
    (0 ≤ attack_rate (S_final N beta gamma mu days I0) N ∧
        attack_rate (S_final N beta gamma mu days I0) N ≤ 1 ↔
      0 ≤ S_final N beta gamma mu days I0 ∧
        S_final N beta gamma mu days I0 ≤ N) := by
  set s := S_final N beta gamma mu days I0 with hs
  refine ⟨rfl, ?_⟩
  rw [attack_rate]
  constructor
  · rintro ⟨h0, h1⟩
    constructor
    · by_contra hneg
      push_neg at hneg
      have hdiv : s / N < 0 := div_neg_of_neg_of_pos hneg hN
      linarith
    · have hdiv : s / N ≤ 1 := by linarith
      exact (div_le_one hN).1 hdiv
  · rintro ⟨h0, h1⟩
    have ha : 0 ≤ s / N := div_nonneg h0 hN.le
    have hb : s / N ≤ 1 := (div_le_one hN).2 h1
    constructor <;> linarith

theorem attack_rate_final_witness :
    attack_rate (S_final 1000 0 0 0 1 1) 1000 =
      1 - S_final 1000 0 0 0 1 1 / 1000 ∧
    (0 ≤ attack_rate (S_final 1000 0 0 0 1 1) 1000 ∧
        attack_rate (S_final 1000 0 0 0 1 1) 1000 ≤ 1 ↔
      0 ≤ S_final 1000 0 0 0 1 1 ∧ S_final 1000 0 0 0 1 1 ≤ 1000) :=
  attack_rate_final 1000 0 0 0 1 1 (by norm_num)

/-- C6: with nonnegative rates and positive population, `SIR_model` returns
`dS/dt <= 0`, `dR/dt >= 0` and `dD/dt >= 0` at every state with `S, I >= 0`,
and along any integrated trajectory whose states keep `S, I >= 0` the
deceased and recovered sequences are non-decreasing and the susceptible
sequence non-increasing between consecutive grid points. -/
theorem monotonicity (y : State) (t N beta gamma mu I0 : ℚ) (days : ℕ)
    (hb : 0 ≤ beta) (hg : 0 ≤ gamma) (hm : 0 ≤ mu) (hN : 0 < N)
    (hS : 0 ≤ y.1) (hI : 0 ≤ y.2.1)
    (hpos : ∀ st ∈ sol N beta gamma mu days I0, 0 ≤ st.1 ∧ 0 ≤ st.2.1) :
    (SIR_model y t N beta gamma mu).1 ≤ 0 ∧
    0 ≤ (SIR_model y t N beta gamma mu).2.2.1 ∧
    0 ≤ (SIR_model y t N beta gamma mu).2.2.2 ∧
    List.Chain' monoRel (sol N beta gamma mu days I0) := by
  obtain ⟨S, I, R, D⟩ := y
  have hS' : 0 ≤ S := hS
  have hI' : 0 ≤ I := hI
  simp only [SIR_model]
  refine ⟨?_, mul_nonneg hg hI', mul_nonneg hm hI', ?_⟩
  · exact div_nonpos_iff.2
      (Or.inr ⟨by nlinarith [mul_nonneg (mul_nonneg hb hS') hI'], hN.le⟩)
  · rw [sol]
    cases hts : timeGrid days with
    | nil => simp [odeint]
    | cons t0 rest =>
      have hch := timeGrid_chain_le days
      rw [hts] at hch
      rw [odeint]
      apply odeintAux_chain N beta gamma mu hb hg hm hN rest _ t0 hch
      intro st hst
      apply hpos
      rw [sol, hts, odeint]
      exact hst

theorem monotonicity_witness :
    (SIR_model ((999 : ℚ), 1, 0, 0) 0 1000 0 0 0).1 ≤ 0 ∧
    0 ≤ (SIR_model ((999 : ℚ), 1, 0, 0) 0 1000 0 0 0).2.2.1 ∧
    0 ≤ (SIR_model ((999 : ℚ), 1, 0, 0) 0 1000 0 0 0).2.2.2 ∧
    List.Chain' monoRel (sol 1000 0 0 0 1 1) := by
  apply monotonicity (999, 1, 0, 0) 0 1000 0 0 0 1 1 le_rfl le_rfl le_rfl
    (by norm_num) (by norm_num) (by norm_num)
  intro st hst
  rw [mem_sol_zero 1000 1 1 st hst]
  norm_num

/-- C9: at the initial state, if the effective reproduction number exceeds 1
then the evaluator's `dI/dt` is positive (infections initially increase),
and if it is below 1 then `dI/dt` is non-positive. -/
theorem threshold (N beta gamma mu I0 : ℚ) (days : ℕ) (hd : 1 ≤ days)
    (hN : 0 < N) (hgm : 0 < gamma + mu) (hI0 : 1 ≤ I0) :
    (1 < (Re beta gamma mu N (S_seq N beta gamma mu days I0)).getD 0 0 →
      0 < (SIR_model (N - I0, I0, 0, 0) 0 N beta gamma mu).2.1) ∧
    ((Re beta gamma mu N (S_seq N beta gamma mu days I0)).getD 0 0 < 1 →
      (SIR_model (N - I0, I0, 0, 0) 0 N beta gamma mu).2.1 ≤ 0) := by
  rw [Re_head N beta gamma mu I0 days hd]
  have hkey : (SIR_model (N - I0, I0, 0, 0) 0 N beta gamma mu).2.1 =
      (gamma + mu) * I0 * ((beta / (gamma + mu)) * ((N - I0) / N) - 1) := by
    simp only [SIR_model]
    field_simp
    ring
  rw [hkey]
  have hI0pos : 0 < I0 := lt_of_lt_of_le one_pos hI0
  constructor
  · intro h1
    have h2 : 0 < (beta / (gamma + mu)) * ((N - I0) / N) - 1 := by linarith
    exact mul_pos (mul_pos hgm hI0pos) h2
  · intro h1
    have h2 : (beta / (gamma + mu)) * ((N - I0) / N) - 1 < 0 := by linarith
    exact le_of_lt (mul_neg_of_pos_of_neg (mul_pos hgm hI0pos) h2)

theorem threshold_witness :
    0 < (SIR_model ((1000 : ℚ) - 1, 1, 0, 0) 0 1000 (3/10) (1/20) (1/50)).2.1 := by
  refine (threshold 1000 (3/10) (1/20) (1/50) 1 1 (by norm_num) (by norm_num)
    (by norm_num) (by norm_num)).1 ?_
  rw [Re_head 1000 (3/10) (1/20) (1/50) 1 1 (by norm_num)]
  norm_num

/-- C10: for `1 <= days <= 365` the time grid has length `days * 10`, starts
at `0`, ends at `days`, is strictly increasing, and the four trajectory
sequences and the `Re` sequence all have the same length as the grid. -/
theorem timeGrid_spec (days : ℕ) (N beta gamma mu I0 : ℚ)
    (h1 : 1 ≤ days) (h2 : days ≤ 365) :
    (timeGrid days).length = days * 10 ∧
    (timeGrid days).getD 0 0 = 0 ∧
    (timeGrid days).getD (days * 10 - 1) 0 = (days : ℚ) ∧
    (∀ i j, i < j → j < days * 10 →
      (timeGrid days).getD i 0 < (timeGrid days).getD j 0) ∧
    (S_seq N beta gamma mu days I0).length = (timeGrid days).length ∧
    (I_seq N beta gamma mu days I0).length = (timeGrid days).length ∧
    (R_seq N beta gamma mu days I0).length = (timeGrid days).length ∧
    (D_seq N beta gamma mu days I0).length = (timeGrid days).length ∧
    (Re beta gamma mu N (S_seq N beta gamma mu days I0)).length =
      (timeGrid days).length := by
  have hlen := timeGrid_length days
  have hsol := sol_length N beta gamma mu I0 days h1
  have hdq : (1 : ℚ) ≤ (days : ℚ) := by exact_mod_cast h1
  refine ⟨hlen, ?_, ?_,
    fun i j hij hj => timeGrid_strict_mono days h1 i j hij hj, ?_, ?_, ?_, ?_, ?_⟩
  · rw [timeGrid_getD days 0 (by omega)]
    simp
  · rw [timeGrid_getD days (days * 10 - 1) (by omega)]
    have hne : ((days : ℚ) * 10 - 1) ≠ 0 := by
      have : (0 : ℚ) < (days : ℚ) * 10 - 1 := by linarith
      exact ne_of_gt this
    have hsub : 1 ≤ days * 10 := by omega
    have hcast : ((days * 10 - 1 : ℕ) : ℚ) = (days : ℚ) * 10 - 1 := by
      rw [Nat.cast_sub hsub]
      push_cast
      ring
    rw [hcast, mul_div_assoc, div_self hne, mul_one]
  · rw [S_seq, List.length_map, hsol, hlen]
  · rw [I_seq, List.length_map, hsol, hlen]
  · rw [R_seq, List.length_map, hsol, hlen]
  · rw [D_seq, List.length_map, hsol, hlen]
  · rw [Re, List.length_map, S_seq, List.length_map, hsol, hlen]

theorem timeGrid_spec_witness :
    (timeGrid 1).length = 1 * 10 ∧
    (timeGrid 1).getD 0 0 = 0 ∧
    (timeGrid 1).getD (1 * 10 - 1) 0 = ((1 : ℕ) : ℚ) ∧
    (timeGrid 1).getD 0 0 < (timeGrid 1).getD 1 0 ∧
    (S_seq 1000 (3/10) (1/20) (1/50) 1 1).length = (timeGrid 1).length ∧
    (Re (3/10) (1/20) (1/50) 1000 (S_seq 1000 (3/10) (1/20) (1/50) 1 1)).length =
      (timeGrid 1).length := by
  obtain ⟨a, b, c, d, e1, _e2, _e3, _e4, e5⟩ :=
    timeGrid_spec 1 1000 (3/10) (1/20) (1/50) 1 (by norm_num) (by norm_num)
  exact ⟨a, b, c, d 0 1 (by norm_num) (by norm_num), e1, e5⟩

end SIR
